import Mathlib

/-!
Verification of the POI classifier and aggregator of the Berlin travel
application (`src/streamlit_app.py`, function `get_osm_places`).

The network fetch (Overpass query, `requests.get`, JSON decode) is outside
the modelled core: the embedding takes the decoded `data['elements']` list
as an explicit input and models the classification / filtering loop that
follows it, faithfully to the Python source.

Python strings are modelled as Lean `String`; the Python tag dictionary of
an element is modelled as an association list (Python dict keys are unique,
and the code only reads from it).  Coordinates (`element['lat']`,
`element['lon']`) are copied through untouched by the code and are carried
as `Float`.  The `cuisine_filter` parameter (`None` by default in Python)
is modelled as a `List String`, with `[]` standing for both `None` and the
empty collection: the Python code only tests its truthiness (both falsy),
iterates it and tests membership, so the two are observationally identical.
-/

/-- One decoded Overpass element: an optional tag map plus coordinates
(`element.get('tags')`, `element['lat']`, `element['lon']`). -/
structure Element where
  tags : Option (List (String × String))
  lat : Float
  lon : Float

/-- One output record of the classifier: the dict
`{"name": .., "lat": .., "lng": .., "type": .., "desc": .., "link": ..}`
appended to `results` in the Python loop. -/
structure DisplayPlace where
  name : String
  lat : Float
  lng : Float
  type : String
  desc : String
  link : String

/-- First-match lookup in a tag dictionary: Python `d[key]` / `key in d`
combined, returning `none` when the key is absent. -/
def lookupTag : List (String × String) → String → Option String
  | [], _ => none
  | (k, v) :: rest, key => if k == key then some v else lookupTag rest key

/-- Python `d.get(key, dflt)`. -/
def getTag (ts : List (String × String)) (key dflt : String) : String :=
  (lookupTag ts key).getD dflt

/-- Python `needle in haystack` for a string prefix position: does `n`
occur at the very start of `h`? -/
def beginsWith : List Char → List Char → Bool
  | [], _ => true
  | _ :: _, [] => false
  | a :: as, b :: bs => a == b && beginsWith as bs

/-- Python substring containment `needle in haystack` on char lists:
`n` occurs contiguously somewhere in `h`. -/
def subOccurs (n : List Char) : List Char → Bool
  | [] => n.isEmpty
  | c :: t => beginsWith n (c :: t) || subOccurs n t

/-- Python `needle in haystack` on strings (`c in raw_cuisine`). -/
def strHasSub (hay needle : String) : Bool :=
  subOccurs needle.data hay.data

/-- Python `str.lower()`: character-wise lowercasing (all strings the
classifier compares are ASCII, where `Char.toLower` agrees with Python). -/
def lowerStr (s : String) : String := ⟨s.data.map Char.toLower⟩

/-- Python `s.replace(" ", "+")`. -/
def replaceSpaces (s : String) : String :=
  ⟨s.data.map (fun c => if c == ' ' then '+' else c)⟩

/-- The fixed bucket-keyword table `cuisine_map` of the source, in its
source (dict-insertion) order. -/
def cuisine_map : List (String × List String) :=
  [("한식", ["korean"]),
   ("양식", ["italian", "french", "german", "american", "burger", "pizza", "steak"]),
   ("일식", ["japanese", "sushi", "ramen"]),
   ("중식", ["chinese", "dim sum"]),
   ("아시안", ["vietnamese", "thai", "asian", "indian"]),
   ("카페", ["coffee", "cafe", "cake", "bakery"])]

/-- Python `user_select in cuisine_map` / `cuisine_map[user_select]`:
look a bucket name up in the keyword table. -/
def lookupBucket : List (String × List String) → String → Option (List String)
  | [], _ => none
  | (k, v) :: rest, key => if k == key then some v else lookupBucket rest key

/-- The active-filter scan of the source:

```
is_match = False
for user_select in cuisine_filter:
    if user_select in cuisine_map:
        if any(c in raw_cuisine for c in cuisine_map[user_select]):
            is_match = True; detected_type = user_select; break
    elif user_select == "기타": is_match = True
```

State `(is_match, detected_type)` is threaded through; the `break` returns
immediately. -/
def scanFilter (raw : String) : List String → Bool → String → Bool × String
  | [], m, d => (m, d)
  | u :: rest, m, d =>
    match lookupBucket cuisine_map u with
    | some kws =>
      if kws.any (fun c => strHasSub raw c) then (true, u)
      else scanFilter raw rest m d
    | none =>
      if u == "기타" then scanFilter raw rest true d
      else scanFilter raw rest m d

/-- The no-filter scan of the source:

```
for k, v in cuisine_map.items():
    if any(c in raw_cuisine for c in v): detected_type = k; break
```

with `detected_type` left at its initial `"기타"` when nothing matches. -/
def scanMap (raw : String) : List (String × List String) → String
  | [] => "기타"
  | (k, v) :: rest =>
    if v.any (fun c => strHasSub raw c) then k else scanMap raw rest

/-- The body of the `for element in data['elements']` loop: `none` when the
element is skipped (no tags, no name, or `continue` under an active filter),
`some place` when a record is appended to `results`. -/
def processElement (category : String) (cuisine_filter : List String)
    (e : Element) : Option DisplayPlace :=
  match e.tags with
  | none => none
  | some ts =>
    match lookupTag ts "name" with
    | none => none
    | some name =>
      let raw_cuisine := lowerStr (getTag ts "cuisine" "general")
      let kept : Option String :=
        if category == "restaurant" then
          if !cuisine_filter.isEmpty && !cuisine_filter.contains "전체" then
            match scanFilter raw_cuisine cuisine_filter false "기타" with
            | (true, d) => some d
            | (false, _) => none
          else
            some (scanMap raw_cuisine cuisine_map)
        else some "기타"
      match kept with
      | none => none
      | some detected_type =>
        let search_query := replaceSpaces (name ++ " Berlin")
        let link := "https://www.google.com/search?q=" ++ search_query
        let desc :=
          if category == "restaurant" then "음식점 (" ++ detected_type ++ ")"
          else if category == "hotel" then "숙박시설"
          else if category == "tourism" then "관광명소"
          else "장소"
        some { name := name, lat := e.lat, lng := e.lon,
               type := category, desc := desc, link := link }

/-- The classification core of `get_osm_places`: the early `return []` for
an unrecognized category, then the `results` accumulation loop over
`data['elements']` (modelled as the explicit `elements` input; the network
fetch itself is out of scope). -/
def get_osm_places (category : String) (cuisine_filter : List String)
    (elements : List Element) : List DisplayPlace :=
  if category == "restaurant" || category == "hotel" || category == "tourism" then
    elements.foldl
      (fun results e =>
        match processElement category cuisine_filter e with
        | some place => results ++ [place]
        | none => results)
      []
  else []

/-- Does an element carry a tag map with a `name` key (the Python guard
`'tags' in element and 'name' in element['tags']`)? -/
def hasNameB (e : Element) : Bool :=
  match e.tags with
  | none => false
  | some ts => (lookupTag ts "name").isSome

/-- The name tag of an element, when present: the value the Python loop
binds as `name` after its `'tags' in element and 'name' in element['tags']`
guard. -/
def elementName (e : Element) : Option String :=
  match e.tags with
  | none => none
  | some ts => lookupTag ts "name"

/-! ### Helper lemmas -/

theorem foldl_append_eq_filterMap {α β : Type} (g : α → Option β)
    (step : List β → α → List β)
    (hstep : ∀ r a, step r a = match g a with | some p => r ++ [p] | none => r) :
    ∀ (l : List α) (acc : List β), l.foldl step acc = acc ++ l.filterMap g
  | [], acc => by simp
  | a :: l, acc => by
    cases h : g a <;>
      simp [List.foldl_cons, hstep, h,
        foldl_append_eq_filterMap g step hstep l, List.filterMap_cons]

theorem get_osm_places_eq_filterMap (cat : String) (f : List String)
    (es : List Element)
    (hcat : cat = "restaurant" ∨ cat = "hotel" ∨ cat = "tourism") :
    get_osm_places cat f es = es.filterMap (processElement cat f) := by
  have key : ∀ c : String, (c == "restaurant" || c == "hotel" || c == "tourism") = true →
      get_osm_places c f es = es.filterMap (processElement c f) := by
    intro c hc
    rw [get_osm_places, if_pos hc]
    refine (foldl_append_eq_filterMap (processElement c f) _ ?_ es []).trans
      (List.nil_append _)
    intro r a
    cases h : processElement c f a <;> simp [h]
  rcases hcat with h | h | h <;> subst h <;> exact key _ (by decide)

theorem processElement_none_of_no_name (cat : String) (f : List String)
    (e : Element) (h : hasNameB e = false) : processElement cat f e = none := by
  cases hts : e.tags with
  | none => simp [processElement, hts]
  | some ts =>
    cases hnm : lookupTag ts "name" with
    | none => simp [processElement, hts, hnm]
    | some nm => simp [hasNameB, hts, hnm] at h

theorem length_filterMap_eq_length_filter {α β : Type} (g : α → Option β) :
    ∀ l : List α,
      (l.filterMap g).length = (l.filter (fun a => (g a).isSome)).length
  | [] => rfl
  | a :: l => by
    cases h : g a <;>
      simp [List.filterMap_cons, h, List.filter_cons,
        length_filterMap_eq_length_filter g l]

theorem scanFilter_fst_of_true (raw : String) :
    ∀ (f : List String) (d : String), (scanFilter raw f true d).1 = true
  | [], _ => rfl
  | u :: rest, d => by
    cases hb : lookupBucket cuisine_map u with
    | some kws =>
      cases hm : kws.any (fun c => strHasSub raw c) <;>
        simp [scanFilter, hb, hm, scanFilter_fst_of_true raw rest d]
    | none =>
      cases hu : (u == "기타") <;>
        simp [scanFilter, hb, hu, scanFilter_fst_of_true raw rest d]

theorem scanFilter_fst_of_mem_gita (raw : String) :
    ∀ (f : List String) (m : Bool) (d : String),
      "기타" ∈ f → (scanFilter raw f m d).1 = true
  | [], _, _, h => absurd h (List.not_mem_nil _)
  | u :: rest, m, d, h => by
    cases hb : lookupBucket cuisine_map u with
    | some kws =>
      cases hm : kws.any (fun c => strHasSub raw c) with
      | true => simp [scanFilter, hb, hm]
      | false =>
        have hrest : "기타" ∈ rest := by
          rcases List.mem_cons.mp h with h1 | h1
          · exfalso
            rw [← h1] at hb
            have hnone : lookupBucket cuisine_map "기타" = none := by decide
            rw [hnone] at hb
            exact Option.noConfusion hb
          · exact h1
        simp [scanFilter, hb, hm, scanFilter_fst_of_mem_gita raw rest m d hrest]
    | none =>
      cases hu : (u == "기타") with
      | true => simp [scanFilter, hb, hu, scanFilter_fst_of_true raw rest d]
      | false =>
        have hrest : "기타" ∈ rest := by
          rcases List.mem_cons.mp h with h1 | h1
          · exact absurd (beq_iff_eq.mpr h1.symm) (by simp [hu])
          · exact h1
        simp [scanFilter, hb, hu, scanFilter_fst_of_mem_gita raw rest m d hrest]

theorem scanFilter_snd_mem (raw : String) :
    ∀ (f : List String) (d : String), "기타" ∉ f →
      (scanFilter raw f false d).1 = true → (scanFilter raw f false d).2 ∈ f
  | [], d, _, h => by simp [scanFilter] at h
  | u :: rest, d, hno, h => by
    have hnorest : "기타" ∉ rest := fun hr => hno (List.mem_cons_of_mem u hr)
    cases hb : lookupBucket cuisine_map u with
    | some kws =>
      cases hm : kws.any (fun c => strHasSub raw c) with
      | true => simp [scanFilter, hb, hm]
      | false =>
        rw [scanFilter, hb] at h ⊢
        simp only [hm, Bool.false_eq_true, if_false] at h ⊢
        exact List.mem_cons_of_mem u (scanFilter_snd_mem raw rest d hnorest h)
    | none =>
      have hu : (u == "기타") = false := by
        cases hu2 : (u == "기타") with
        | true =>
          have hu3 : u = "기타" := beq_iff_eq.mp hu2
          exact absurd (show "기타" ∈ u :: rest by
            rw [← hu3]; exact List.mem_cons_self u rest) hno
        | false => rfl
      rw [scanFilter, hb] at h ⊢
      simp only [hu, Bool.false_eq_true, if_false] at h ⊢
      exact List.mem_cons_of_mem u (scanFilter_snd_mem raw rest d hnorest h)

theorem lookupBucket_general (u : String) (kws : List String)
    (h : lookupBucket cuisine_map u = some kws) :
    kws.any (fun c => strHasSub (lowerStr "general") c) = false := by
  simp only [cuisine_map, lookupBucket] at h
  repeat' split at h
  all_goals first
    | (cases h; decide)
    | cases h

theorem scanFilter_general :
    ∀ (f : List String) (m : Bool) (d : String), "기타" ∉ f →
      scanFilter (lowerStr "general") f m d = (m, d)
  | [], _, _, _ => rfl
  | u :: rest, m, d, hno => by
    have hnorest : "기타" ∉ rest := fun hr => hno (List.mem_cons_of_mem u hr)
    cases hb : lookupBucket cuisine_map u with
    | some kws =>
      simp [scanFilter, hb, lookupBucket_general u kws hb,
        scanFilter_general rest m d hnorest]
    | none =>
      have hu : (u == "기타") = false := by
        cases hu2 : (u == "기타") with
        | true =>
          have hu3 : u = "기타" := beq_iff_eq.mp hu2
          exact absurd (show "기타" ∈ u :: rest by
            rw [← hu3]; exact List.mem_cons_self u rest) hno
        | false => rfl
      simp [scanFilter, hb, hu, scanFilter_general rest m d hnorest]

theorem beginsWith_map_toLower :
    ∀ (n h : List Char), (∀ c ∈ n, c.toLower = c) → beginsWith n h = true →
      beginsWith n (h.map Char.toLower) = true
  | [], _, _, _ => rfl
  | a :: as, [], _, hb => by simp [beginsWith] at hb
  | a :: as, b :: bs, hfix, hb => by
    simp only [beginsWith, Bool.and_eq_true, beq_iff_eq] at hb
    obtain ⟨hab, htail⟩ := hb
    simp only [List.map_cons, beginsWith, Bool.and_eq_true, beq_iff_eq]
    constructor
    · rw [← hab]
      exact (hfix a (List.mem_cons_self a as)).symm
    · exact beginsWith_map_toLower as bs
        (fun c hc => hfix c (List.mem_cons_of_mem a hc)) htail

theorem subOccurs_map_toLower :
    ∀ (n h : List Char), (∀ c ∈ n, c.toLower = c) → subOccurs n h = true →
      subOccurs n (h.map Char.toLower) = true
  | n, [], _, hs => hs
  | n, c :: t, hfix, hs => by
    simp only [subOccurs, Bool.or_eq_true] at hs
    simp only [List.map_cons, subOccurs, Bool.or_eq_true]
    rcases hs with hs | hs
    · left
      have := beginsWith_map_toLower n (c :: t) hfix hs
      simpa using this
    · right
      exact subOccurs_map_toLower n t hfix hs

theorem strHasSub_lowerStr (s needle : String)
    (hfix : ∀ c ∈ needle.data, c.toLower = c)
    (h : strHasSub s needle = true) : strHasSub (lowerStr s) needle = true :=
  subOccurs_map_toLower needle.data s.data hfix h

theorem processElement_name_eq_of_mem_gita (f : List String)
    (hg : "기타" ∈ f) (e : Element) :
    Option.map DisplayPlace.name (processElement "restaurant" f e)
      = elementName e := by
  cases hts : e.tags with
  | none => simp [processElement, elementName, hts]
  | some ts =>
    cases hnm : lookupTag ts "name" with
    | none => simp [processElement, elementName, hts, hnm]
    | some nm =>
      simp only [processElement, elementName, hts, hnm]
      by_cases hcp : ¬f = [] ∧ "전체" ∉ f
      · rcases hsc : scanFilter (lowerStr (getTag ts "cuisine" "general")) f
            false "기타" with ⟨m, d⟩
        have hm : m = true := by
          have := scanFilter_fst_of_mem_gita
            (lowerStr (getTag ts "cuisine" "general")) f false "기타" hg
          rw [hsc] at this
          exact this
        subst hm
        simp [hcp, hsc]
      · simp [hcp]

theorem processElement_hotel_tourism (cat : String) (f : List String)
    (e : Element) (hcat : cat = "hotel" ∨ cat = "tourism") :
    Option.map DisplayPlace.name (processElement cat f e) = elementName e ∧
    Option.map DisplayPlace.desc (processElement cat f e)
      = (elementName e).map
          (fun _ => if cat = "hotel" then "숙박시설" else "관광명소") := by
  cases hts : e.tags with
  | none => rcases hcat with h | h <;> subst h <;>
      simp [processElement, elementName, hts]
  | some ts =>
    cases hnm : lookupTag ts "name" with
    | none => rcases hcat with h | h <;> subst h <;>
        simp [processElement, elementName, hts, hnm]
    | some nm => rcases hcat with h | h <;> subst h <;>
        simp [processElement, elementName, hts, hnm]

theorem activeCond_true (f : List String) (hne : ¬f = []) (hall : "전체" ∉ f) :
    (!f.isEmpty && !f.contains "전체") = true := by
  simp [hne, hall]

theorem processElement_restaurant_nofilter (f : List String) (e : Element)
    (ts : List (String × String)) (nm : String)
    (hts : e.tags = some ts) (hnm : lookupTag ts "name" = some nm)
    (hf : f = [] ∨ "전체" ∈ f) :
    processElement "restaurant" f e = some
      { name := nm, lat := e.lat, lng := e.lon, type := "restaurant",
        desc := "음식점 (" ++
          scanMap (lowerStr (getTag ts "cuisine" "general")) cuisine_map ++ ")",
        link := "https://www.google.com/search?q=" ++
          replaceSpaces (nm ++ " Berlin") } := by
  have hcp : ¬(¬f = [] ∧ "전체" ∉ f) := by
    rcases hf with h | h
    · exact fun hc => hc.1 h
    · exact fun hc => hc.2 h
  simp [processElement, hts, hnm, hcp]

theorem processElement_some_link (cat : String) (f : List String)
    (e : Element) (p : DisplayPlace) (h : processElement cat f e = some p) :
    p.link = "https://www.google.com/search?q=" ++
      replaceSpaces (p.name ++ " Berlin") := by
  cases hts : e.tags with
  | none => simp [processElement, hts] at h
  | some ts =>
    cases hnm : lookupTag ts "name" with
    | none => simp [processElement, hts, hnm] at h
    | some nm =>
      simp only [processElement, hts, hnm] at h
      repeat' split at h
      all_goals cases h <;> rfl

theorem processElement_active_desc (f : List String) (e : Element)
    (p : DisplayPlace)
    (hne : ¬f = []) (hall : "전체" ∉ f) (hoth : "기타" ∉ f)
    (h : processElement "restaurant" f e = some p) :
    ∃ b, b ∈ f ∧ p.desc = "음식점 (" ++ b ++ ")" := by
  cases hts : e.tags with
  | none => simp [processElement, hts] at h
  | some ts =>
    cases hnm : lookupTag ts "name" with
    | none => simp [processElement, hts, hnm] at h
    | some nm =>
      simp only [processElement, hts, hnm,
        activeCond_true f hne hall, if_true, Bool.true_and] at h
      rcases hsc : scanFilter (lowerStr (getTag ts "cuisine" "general")) f
          false "기타" with ⟨m, d⟩
      rw [hsc] at h
      cases m with
      | false => simp at h
      | true =>
        have hfst : (scanFilter (lowerStr (getTag ts "cuisine" "general")) f
            false "기타").1 = true := by rw [hsc]
        have hd : d ∈ f := by
          have h2 := scanFilter_snd_mem
            (lowerStr (getTag ts "cuisine" "general")) f "기타" hoth hfst
          rw [hsc] at h2
          exact h2
        refine ⟨d, hd, ?_⟩
        have hp := Option.some.inj h
        rw [← hp]
        simp

/-! ### Claims -/

/-- C1 (counterexample): the claim fails as stated.  With the active cuisine
filter `["양식"]` (Western), a restaurant whose cuisine string `"korean pizza"`
contains `"korean"` is detected as 양식, not 한식: under an active filter the
code scans the filter's buckets, not the fixed-priority table. -/
theorem C1_counterexample :
    strHasSub "korean pizza" "korean" = true ∧
    (get_osm_places "restaurant" ["양식"]
        [{ tags := some [("name", "Fusion"), ("cuisine", "korean pizza")],
           lat := 0.0, lon := 0.0 }]).map DisplayPlace.desc
      = ["음식점 (양식)"] := by
  exact ⟨rfl, rfl⟩

/-- C1 (amended): when no cuisine filter is active (the filter is empty or
contains the sentinel "전체"), buckets are tested in the fixed priority order
of `cuisine_map`, and every cuisine string containing `"korean"` is detected
as Korean ("한식") regardless of other keywords also present.  (Under an
active filter the code instead scans the filter's buckets, see the
counterexample.) -/
theorem C1_first_match_priority (f : List String) (e : Element)
    (ts : List (String × String)) (nm cui : String)
    (hts : e.tags = some ts) (hnm : lookupTag ts "name" = some nm)
    (hcui : getTag ts "cuisine" "general" = cui)
    (hk : strHasSub cui "korean" = true)
    (hf : f = [] ∨ "전체" ∈ f) :
    Option.map DisplayPlace.desc (processElement "restaurant" f e)
      = some "음식점 (한식)" := by
  rw [processElement_restaurant_nofilter f e ts nm hts hnm hf, hcui]
  have hlow : strHasSub (lowerStr cui) "korean" = true :=
    strHasSub_lowerStr cui "korean" (by decide) hk
  have hscan : scanMap (lowerStr cui) cuisine_map = "한식" := by
    simp [scanMap, cuisine_map, hlow]
  rw [hscan]
  rfl

/-- C1 witness: a concrete cuisine string containing both `"korean"` and
`"pizza"`, classified with no active filter. -/
theorem C1_first_match_priority_witness :
    Option.map DisplayPlace.desc (processElement "restaurant" []
      { tags := some [("name", "Kim"), ("cuisine", "korean bbq pizza")],
        lat := 0.0, lon := 0.0 })
      = some "음식점 (한식)" :=
  C1_first_match_priority [] _ [("name", "Kim"), ("cuisine", "korean bbq pizza")]
    "Kim" "korean bbq pizza" rfl rfl rfl (by decide) (Or.inl rfl)

/-- C2: with category Restaurant and a cuisine filter containing the sentinel
"기타" (Other), no record with a name is excluded: the output names are
exactly the names of the named input records, in order, whatever bucket each
cuisine string would classify into. -/
theorem C2_other_sentinel_keeps_all (f : List String) (es : List Element)
    (hg : "기타" ∈ f) :
    (get_osm_places "restaurant" f es).map DisplayPlace.name
      = es.filterMap elementName := by
  rw [get_osm_places_eq_filterMap "restaurant" f es (Or.inl rfl),
    List.map_filterMap]
  exact List.filterMap_congr
    (fun e _ => processElement_name_eq_of_mem_gita f hg e)

/-- C2 witness: the filter `["기타"]` keeps both a Korean restaurant and one
with no cuisine tag; the record without a name is dropped. -/
theorem C2_other_sentinel_keeps_all_witness :
    (get_osm_places "restaurant" ["기타"]
        [{ tags := some [("name", "Kim"), ("cuisine", "korean")],
           lat := 0.0, lon := 0.0 },
         { tags := some [("addr", "x")], lat := 0.0, lon := 0.0 }]).map
      DisplayPlace.name
      = ([{ tags := some [("name", "Kim"), ("cuisine", "korean")],
            lat := 0.0, lon := 0.0 },
          { tags := some [("addr", "x")], lat := 0.0, lon := 0.0 }] :
         List Element).filterMap elementName :=
  C2_other_sentinel_keeps_all ["기타"] _ (by decide)

/-- C3: the singleton filter `["전체"]` (the "All" sentinel) produces exactly
the same output list as the empty filter: in both calls no record is
excluded and every record is classified by the fixed bucket table. -/
theorem C3_all_sentinel_equals_empty (es : List Element) :
    get_osm_places "restaurant" ["전체"] es
      = get_osm_places "restaurant" [] es := by
  rw [get_osm_places_eq_filterMap "restaurant" ["전체"] es (Or.inl rfl),
    get_osm_places_eq_filterMap "restaurant" [] es (Or.inl rfl)]
  refine List.filterMap_congr (fun e _ => ?_)
  cases hts : e.tags with
  | none => simp [processElement, hts]
  | some ts =>
    cases hnm : lookupTag ts "name" with
    | none => simp [processElement, hts, hnm]
    | some nm => simp [processElement, hts, hnm]

/-- C4: for the Hotel and Tourism categories the cuisine filter never
excludes a named record: the output names are exactly the names of the named
input records, in order, and every output record carries the fixed label of
its category. -/
theorem C4_hotel_tourism_unfiltered (f : List String) (es : List Element) :
    ((get_osm_places "hotel" f es).map DisplayPlace.name
        = es.filterMap elementName ∧
      (get_osm_places "hotel" f es).map DisplayPlace.desc
        = (es.filterMap elementName).map (fun _ => "숙박시설")) ∧
    ((get_osm_places "tourism" f es).map DisplayPlace.name
        = es.filterMap elementName ∧
      (get_osm_places "tourism" f es).map DisplayPlace.desc
        = (es.filterMap elementName).map (fun _ => "관광명소")) := by
  refine ⟨⟨?_, ?_⟩, ?_, ?_⟩
  · rw [get_osm_places_eq_filterMap "hotel" f es (Or.inr (Or.inl rfl)),
      List.map_filterMap]
    exact List.filterMap_congr
      (fun e _ => (processElement_hotel_tourism "hotel" f e (Or.inl rfl)).1)
  · rw [get_osm_places_eq_filterMap "hotel" f es (Or.inr (Or.inl rfl)),
      List.map_filterMap, List.map_filterMap]
    refine List.filterMap_congr (fun e _ => ?_)
    have h2 := (processElement_hotel_tourism "hotel" f e (Or.inl rfl)).2
    simpa using h2
  · rw [get_osm_places_eq_filterMap "tourism" f es (Or.inr (Or.inr rfl)),
      List.map_filterMap]
    exact List.filterMap_congr
      (fun e _ => (processElement_hotel_tourism "tourism" f e (Or.inr rfl)).1)
  · rw [get_osm_places_eq_filterMap "tourism" f es (Or.inr (Or.inr rfl)),
      List.map_filterMap, List.map_filterMap]
    refine List.filterMap_congr (fun e _ => ?_)
    have h2 := (processElement_hotel_tourism "tourism" f e (Or.inr rfl)).2
    simpa using h2

/-- C5 (counterexample): the claim fails as stated.  A record whose `name`
tag is the empty string is kept by the code (the Python guard only tests key
presence), so an output element can correspond to a record without a
non-empty name tag. -/
theorem C5_counterexample :
    (get_osm_places "restaurant" []
        [{ tags := some [("name", "")], lat := 0.0, lon := 0.0 }]).map
      DisplayPlace.name = [""] := by
  exact rfl

/-- C5 (amended): every output element corresponds to exactly one input
record that has a `name` tag present (possibly the empty string); records
lacking the `name` key are absent, and the output cardinality equals the
number of records that pass the name check and the filter. -/
theorem C5_name_presence (cat : String) (f : List String) (es : List Element)
    (hcat : cat = "restaurant" ∨ cat = "hotel" ∨ cat = "tourism") :
    get_osm_places cat f es = es.filterMap (processElement cat f) ∧
    (∀ e, hasNameB e = false → processElement cat f e = none) ∧
    (get_osm_places cat f es).length
      = (es.filter (fun e => (processElement cat f e).isSome)).length := by
  refine ⟨get_osm_places_eq_filterMap cat f es hcat,
    fun e he => processElement_none_of_no_name cat f e he, ?_⟩
  rw [get_osm_places_eq_filterMap cat f es hcat]
  exact length_filterMap_eq_length_filter (processElement cat f) es

/-- C5 witness: concrete instance with a nameless record. -/
theorem C5_name_presence_witness :
    get_osm_places "restaurant" [] [{ tags := none, lat := 0.0, lon := 0.0 }]
      = [({ tags := none, lat := 0.0, lon := 0.0 } : Element)].filterMap
          (processElement "restaurant" []) ∧
    processElement "restaurant" []
      { tags := none, lat := 0.0, lon := 0.0 } = none :=
  ⟨(C5_name_presence "restaurant" [] _ (Or.inl rfl)).1,
   (C5_name_presence "restaurant" [] [] (Or.inl rfl)).2.1 _ rfl⟩

/-- C6: a restaurant record with a name but no cuisine tag is treated as the
literal cuisine `"general"`, which matches no bucket keyword; with no active
filter it is classified Other ("기타") and kept, and under an active filter
not containing "기타" it is excluded. -/
theorem C6_missing_cuisine_general (f : List String) (e : Element)
    (ts : List (String × String)) (nm : String)
    (hts : e.tags = some ts) (hnm : lookupTag ts "name" = some nm)
    (hcui : lookupTag ts "cuisine" = none) :
    cuisine_map.all
        (fun kv => kv.2.all (fun c => !strHasSub (lowerStr "general") c))
      = true ∧
    ((f = [] ∨ "전체" ∈ f) →
      Option.map DisplayPlace.desc (processElement "restaurant" f e)
        = some "음식점 (기타)") ∧
    (¬f = [] → "전체" ∉ f → "기타" ∉ f →
      processElement "restaurant" f e = none) := by
  have hgen : getTag ts "cuisine" "general" = "general" := by
    rw [getTag, hcui]
    rfl
  refine ⟨by decide, ?_, ?_⟩
  · intro hf
    rw [processElement_restaurant_nofilter f e ts nm hts hnm hf, hgen]
    have hscan : scanMap (lowerStr "general") cuisine_map = "기타" := by decide
    rw [hscan]
    rfl
  · intro hne hall hoth
    simp only [processElement, hts, hnm, hgen]
    rw [activeCond_true f hne hall,
      scanFilter_general f false "기타" hoth]
    simp

/-- C6 witness: a named record with no cuisine tag is kept as Other with no
filter and excluded under the filter `["한식"]`. -/
theorem C6_missing_cuisine_general_witness :
    Option.map DisplayPlace.desc (processElement "restaurant" []
        { tags := some [("name", "NoTag")], lat := 0.0, lon := 0.0 })
      = some "음식점 (기타)" ∧
    processElement "restaurant" ["한식"]
        { tags := some [("name", "NoTag")], lat := 0.0, lon := 0.0 }
      = none :=
  ⟨(C6_missing_cuisine_general [] _ [("name", "NoTag")] "NoTag"
      rfl rfl rfl).2.1 (Or.inl rfl),
   (C6_missing_cuisine_general ["한식"] _ [("name", "NoTag")] "NoTag"
      rfl rfl rfl).2.2 (by decide) (by decide) (by decide)⟩

/-- C7: every output record's external link is the fixed search-URL template
applied to the record's name concatenated with " Berlin", every space
replaced by "+". -/
theorem C7_external_link (cat : String) (f : List String) (es : List Element)
    (p : DisplayPlace) (hp : p ∈ get_osm_places cat f es) :
    p.link = "https://www.google.com/search?q=" ++
      replaceSpaces (p.name ++ " Berlin") := by
  have hcat : (cat == "restaurant" || cat == "hotel" || cat == "tourism")
      = true := by
    by_contra hc
    rw [get_osm_places, if_neg hc] at hp
    exact absurd hp (List.not_mem_nil p)
  have hcp : cat = "restaurant" ∨ cat = "hotel" ∨ cat = "tourism" := by
    simp only [Bool.or_eq_true, beq_iff_eq] at hcat
    tauto
  rw [get_osm_places_eq_filterMap cat f es hcp, List.mem_filterMap] at hp
  obtain ⟨e, _, hpe⟩ := hp
  exact processElement_some_link cat f e p hpe

/-- C7 witness: a concrete restaurant whose name contains a space. -/
theorem C7_external_link_witness :
    (⟨"Kim Bab", 0.0, 0.0, "restaurant", "음식점 (한식)",
        "https://www.google.com/search?q=Kim+Bab+Berlin"⟩ : DisplayPlace).link
      = "https://www.google.com/search?q=" ++
        replaceSpaces ("Kim Bab" ++ " Berlin") :=
  C7_external_link "restaurant" []
    [{ tags := some [("name", "Kim Bab"), ("cuisine", "korean")],
       lat := 0.0, lon := 0.0 }] _ (List.Mem.head _)

/-- C8: classification preserves input order: the output is the in-order
filterMap of the loop body over the input, output of an appended input splits
as appended outputs, and the empty input yields the empty output for every
category and filter. -/
theorem C8_order_preservation (cat : String) (f : List String)
    (es xs ys : List Element) :
    get_osm_places cat f [] = [] ∧
    ((cat = "restaurant" ∨ cat = "hotel" ∨ cat = "tourism") →
      get_osm_places cat f es = es.filterMap (processElement cat f)) ∧
    get_osm_places cat f (xs ++ ys)
      = get_osm_places cat f xs ++ get_osm_places cat f ys := by
  refine ⟨?_, fun h => get_osm_places_eq_filterMap cat f es h, ?_⟩
  · rw [get_osm_places]
    split <;> rfl
  · by_cases hcat : (cat == "restaurant" || cat == "hotel" || cat == "tourism")
        = true
    · have hcp : cat = "restaurant" ∨ cat = "hotel" ∨ cat = "tourism" := by
        simp only [Bool.or_eq_true, beq_iff_eq] at hcat
        tauto
      rw [get_osm_places_eq_filterMap cat f (xs ++ ys) hcp,
        get_osm_places_eq_filterMap cat f xs hcp,
        get_osm_places_eq_filterMap cat f ys hcp,
        List.filterMap_append]
    · rw [get_osm_places, get_osm_places, get_osm_places,
        if_neg hcat, if_neg hcat, if_neg hcat]
      rfl

/-- C8 witness: concrete instance of the empty-input and filterMap facts. -/
theorem C8_order_preservation_witness :
    get_osm_places "restaurant" ["한식"] [] = [] ∧
    get_osm_places "restaurant" ["한식"]
        [{ tags := some [("name", "Kim"), ("cuisine", "korean")],
           lat := 0.0, lon := 0.0 }]
      = [({ tags := some [("name", "Kim"), ("cuisine", "korean")],
            lat := 0.0, lon := 0.0 } : Element)].filterMap
          (processElement "restaurant" ["한식"]) :=
  ⟨(C8_order_preservation "restaurant" ["한식"] [] [] []).1,
   (C8_order_preservation "restaurant" ["한식"]
      [{ tags := some [("name", "Kim"), ("cuisine", "korean")],
         lat := 0.0, lon := 0.0 }] [] []).2.1 (Or.inl rfl)⟩

/-- C9: the classifier is deterministic: two calls with equal category,
equal filter and equal records produce equal output lists, in the same
order. -/
theorem C9_deterministic (cat1 cat2 : String) (f1 f2 : List String)
    (es1 es2 : List Element)
    (hc : cat1 = cat2) (hf : f1 = f2) (he : es1 = es2) :
    get_osm_places cat1 f1 es1 = get_osm_places cat2 f2 es2 := by
  rw [hc, hf, he]

/-- C9 witness: concrete instance. -/
theorem C9_deterministic_witness :
    get_osm_places "restaurant" ["한식"]
        [{ tags := some [("name", "Kim"), ("cuisine", "korean")],
           lat := 0.0, lon := 0.0 }]
      = get_osm_places "restaurant" ["한식"]
          [{ tags := some [("name", "Kim"), ("cuisine", "korean")],
             lat := 0.0, lon := 0.0 }] :=
  C9_deterministic "restaurant" "restaurant" ["한식"] ["한식"]
    [{ tags := some [("name", "Kim"), ("cuisine", "korean")],
       lat := 0.0, lon := 0.0 }]
    [{ tags := some [("name", "Kim"), ("cuisine", "korean")],
       lat := 0.0, lon := 0.0 }] rfl rfl rfl

/-- C10: under an active cuisine filter containing neither sentinel, every
restaurant record in the output carries a detected bucket that is a member
of the filter, embedded in its label. -/
theorem C10_active_filter_bucket (f : List String) (es : List Element)
    (p : DisplayPlace)
    (hne : ¬f = []) (hall : "전체" ∉ f) (hoth : "기타" ∉ f)
    (hp : p ∈ get_osm_places "restaurant" f es) :
    p.desc ∈ f.map (fun b => "음식점 (" ++ b ++ ")") := by
  rw [get_osm_places_eq_filterMap "restaurant" f es (Or.inl rfl),
    List.mem_filterMap] at hp
  obtain ⟨e, _, hpe⟩ := hp
  obtain ⟨b, hb, hdesc⟩ := processElement_active_desc f e p hne hall hoth hpe
  exact List.mem_map.mpr ⟨b, hb, hdesc.symm⟩

/-- C10 witness: filter `["한식"]` with a Korean restaurant. -/
theorem C10_active_filter_bucket_witness :
    (⟨"Kim", 0.0, 0.0, "restaurant", "음식점 (한식)",
        "https://www.google.com/search?q=Kim+Berlin"⟩ : DisplayPlace).desc
      ∈ (["한식"].map (fun b => "음식점 (" ++ b ++ ")")) :=
  C10_active_filter_bucket ["한식"]
    [{ tags := some [("name", "Kim"), ("cuisine", "korean")],
       lat := 0.0, lon := 0.0 }] _
    (by decide) (by decide) (by decide) (List.Mem.head _)
